import Mathlib

/-!
Verification of the vgame-horizon enrichment pipeline.

The development shallowly embeds the decision logic of the repository:
* the notable-game classifier `is_notable_game` (src/server.py and
  src/api/index.py, which contain the same function and the same
  allow-list),
* the LLM credit-detail fetchers (src/detail_fetcher.py,
  `OpenAIDetailFetcher.fetch` and `DoubaoDetailFetcher.fetch`),
* the batch name translator (`DoubaoDetailFetcher.translate_game_names`
  and `_translate_batch`),
* the detail endpoint's fallback-name retry (`get_game_detail` /
  `handle_get_detail`).

JSON values decoded from model output are embedded as the inductive
`PyVal`; Python exceptions raised while walking such a value are embedded
as `Option`/failure results, matching the `except` handlers that catch
them in the source.  Strings are Lean `String`s; `str.lower` and
`str.strip` are modelled over the ASCII range (every allow-list entry and
every input exercised by the claims is ASCII).
-/

set_option maxHeartbeats 1000000

namespace VGame

/-- A Python/JSON value as produced by `json.loads`.  Object fields are
kept as an association list with (by construction of `json.loads`)
pairwise-distinct string keys. -/
inductive PyVal where
  | none
  | bool (b : Bool)
  | int (n : Int)
  | str (s : String)
  | list (xs : List PyVal)
  | dict (fields : List (String × PyVal))

/-- Python truthiness (`bool(v)`) for the embedded values:
`None`, `False`, `0`, `""`, `[]` and `{}` are falsy. -/
def truthy : PyVal → Bool
  | .none => false
  | .bool b => b
  | .int n => n != 0
  | .str s => s != ""
  | .list xs => !xs.isEmpty
  | .dict f => !f.isEmpty

/-- `fields.get(k, dflt)` on an embedded JSON object. -/
def pyGet (fields : List (String × PyVal)) (k : String) (dflt : PyVal) : PyVal :=
  match fields.lookup k with
  | .some v => v
  | .none => dflt

/-- `s.lower()`, modelled over ASCII letters. -/
def pyLower (s : String) : String := ⟨s.data.map Char.toLower⟩

/-- `s.strip()`: drop leading and trailing whitespace. -/
def pyStrip (s : String) : String :=
  ⟨((s.data.dropWhile Char.isWhitespace).reverse.dropWhile Char.isWhitespace).reverse⟩

/-- Python's substring test `needle in hay`, as a scan over the text. -/
def isSubstr (needle : List Char) : List Char → Bool
  | [] => needle.isEmpty
  | c :: t => needle.isPrefixOf (c :: t) || isSubstr needle t

/-- `needle in hay` on strings. -/
def strIn (needle hay : String) : Bool := isSubstr needle.data hay.data

theorem isSubstr_iff (n h : List Char) : isSubstr n h = true ↔ n <:+: h := by
  induction h with
  | nil =>
      simp [isSubstr, List.infix_nil, List.isEmpty_iff]
  | cons a t ih =>
      simp [isSubstr, List.isPrefixOf_iff_prefix, ih, List.infix_cons_iff]

/-! ## Notable-game classifier (src/server.py:26-203, src/api/index.py:20-121) -/

/-- `NOTABLE_DEVELOPERS`: the fixed allow-list.  The source keeps it as a
Python `set`; only membership/iteration for a disjunction is used, so a
list is an equivalent embedding.  The sets in src/server.py and
src/api/index.py are identical. -/
def NOTABLE_DEVELOPERS : List String := [
  "Nintendo", "Nintendo EPD", "Nintendo EAD",
  "Square Enix", "Square", "Enix",
  "Bandai Namco", "Bandai Namco Entertainment", "Bandai Namco Studios",
  "Capcom", "CAPCOM",
  "Konami", "Konami Digital Entertainment",
  "SEGA", "Sega",
  "Atlus", "ATLUS",
  "Koei Tecmo", "Koei Tecmo Games", "Omega Force", "Team Ninja",
  "Level-5", "Level5",
  "FromSoftware", "From Software",
  "PlatinumGames", "Platinum Games",
  "Falcom", "Nihon Falcom",
  "NIS", "Nippon Ichi Software",
  "Arc System Works",
  "Spike Chunsoft",
  "Grasshopper Manufacture",
  "Vanillaware",
  "Game Freak",
  "HAL Laboratory",
  "Intelligent Systems",
  "Monolith Soft",
  "Retro Studios",
  "Ubisoft", "Ubisoft Montreal", "Ubisoft Paris",
  "Electronic Arts", "EA", "EA Sports",
  "Activision", "Activision Blizzard",
  "Blizzard", "Blizzard Entertainment",
  "Bethesda", "Bethesda Game Studios", "Bethesda Softworks",
  "2K Games", "2K", "Firaxis Games",
  "Rockstar Games", "Rockstar North",
  "Warner Bros", "WB Games",
  "CD Projekt", "CD Projekt Red",
  "Devolver Digital",
  "505 Games",
  "THQ Nordic",
  "Team Cherry",
  "Supergiant Games",
  "Moon Studios",
  "Yacht Club Games",
  "Motion Twin",
  "ConcernedApe"]

def NOTABLE_HYPES_THRESHOLD : Int := 10

/-- One allow-list comparison of `is_notable_game`
(src/server.py:200, src/api/index.py:118):
`notable.lower() in company_name.lower() or company_name.lower() in notable.lower()`. -/
def entryMatches (notable company_name : String) : Bool :=
  strIn (pyLower notable) (pyLower company_name) ||
    strIn (pyLower company_name) (pyLower notable)

/-- The inner loop over `NOTABLE_DEVELOPERS` with its early `return True`. -/
def companyMatches (company_name : String) : Bool :=
  NOTABLE_DEVELOPERS.any fun notable => entryMatches notable company_name

/-- The value found at key `"company"` of an involvement record:
either a JSON object (whose `name`, when present, is a string) or any
non-dict value, which the source's `isinstance(company, dict)` rejects. -/
inductive CompanyVal where
  | dict (fields : List (String × String))
  | nonDict
deriving DecidableEq

/-- One entry of `involved_companies`; `company = Option.none` embeds a
record without a `"company"` key, for which `ic.get("company", {})`
substitutes the empty dict. -/
structure InvolvedCompany where
  company : Option CompanyVal
deriving DecidableEq

/-- The slice of a catalog game record read by `is_notable_game`:
`game.get("hypes")` (absent field embeds as `Option.none`) and
`game.get("involved_companies", [])`. -/
structure IGame where
  hypes : Option Int
  involved_companies : List InvolvedCompany
deriving DecidableEq

/-- `is_notable_game` (src/server.py:179-203, src/api/index.py:107-121).
`game.get("hypes") or 0` sends both an absent field and `0` to `0`,
which `Option.getD` reproduces. -/
def is_notable_game (game : IGame) : Bool :=
  let hypes : Int := game.hypes.getD 0
  if NOTABLE_HYPES_THRESHOLD ≤ hypes then true
  else
    game.involved_companies.any fun ic =>
      match ic.company.getD (CompanyVal.dict []) with
      | CompanyVal.dict fields => companyMatches ((fields.lookup "name").getD "")
      | CompanyVal.nonDict => false

/-- C2: the company-matching arm matches a company name against an
allow-list entry iff, case-insensitively, one is a literal substring of
the other; in particular `"EA"` does not match the entry
`"Electronic Arts"` while `"EA Sports Inc."` matches `"EA Sports"`. -/
theorem company_matching_arm_is_bidirectional_substring :
    (∀ notable company_name : String,
      entryMatches notable company_name = true ↔
        ((pyLower notable).data <:+: (pyLower company_name).data ∨
         (pyLower company_name).data <:+: (pyLower notable).data)) ∧
    entryMatches "Electronic Arts" "EA" = false ∧
    entryMatches "EA Sports" "EA Sports Inc." = true := by
  refine ⟨fun n c => ?_, by decide, by decide⟩
  simp [entryMatches, strIn, isSubstr_iff]

/-- C3: with no involved-company data, `is_notable_game` is true at
`hypes = 10`, false at `hypes = 9`, and false when `hypes` is absent;
moreover an absent `hypes` behaves exactly like `hypes = 0` on every
company list. -/
theorem hypes_threshold_boundary :
    is_notable_game ⟨some 10, []⟩ = true ∧
    is_notable_game ⟨some 9, []⟩ = false ∧
    is_notable_game ⟨Option.none, []⟩ = false ∧
    (∀ cs : List InvolvedCompany,
      is_notable_game ⟨Option.none, cs⟩ = is_notable_game ⟨some 0, cs⟩) :=
  ⟨by decide, by decide, by decide, fun _ => rfl⟩

/-- C10: an involvement record whose company is a dict with a missing or
empty `name` makes `is_notable_game` return true whatever `hypes` is,
because the empty company name is a substring of every allow-list entry. -/
theorem empty_company_name_forces_notable (g : IGame) (ic : InvolvedCompany)
    (fields : List (String × String))
    (hmem : ic ∈ g.involved_companies)
    (hdict : ic.company.getD (CompanyVal.dict []) = CompanyVal.dict fields)
    (hname : (fields.lookup "name").getD "" = "") :
    is_notable_game g = true := by
  by_cases h : NOTABLE_HYPES_THRESHOLD ≤ g.hypes.getD 0
  · simp [is_notable_game, h]
  · simp only [is_notable_game, if_neg h, List.any_eq_true]
    refine ⟨ic, hmem, ?_⟩
    rw [hdict]
    show companyMatches ((fields.lookup "name").getD "") = true
    rw [hname]
    decide

theorem empty_company_name_forces_notable_witness :
    is_notable_game ⟨some 0, [⟨some (CompanyVal.dict [])⟩]⟩ = true :=
  empty_company_name_forces_notable _ ⟨some (CompanyVal.dict [])⟩ []
    (by decide) rfl rfl

/-! ## Credit-detail fetchers (src/detail_fetcher.py:50-364) -/

/-- `GameCredit` (src/detail_fetcher.py:12-17).  `name` and `known_for`
hold whatever JSON value the model supplied; the source stores them
unchecked. -/
structure GameCredit where
  name : PyVal
  role : String
  known_for : PyVal

/-- The slice of `GameDetails` (src/detail_fetcher.py:20-39) that
`fetch` fills in. -/
structure GameDetails where
  name : String
  directors : List GameCredit
  writers : List GameCredit
  composers : List GameCredit
  producers : List GameCredit
  series : PyVal
  related_games : PyVal
  highlights : PyVal

/-- Iterating `data.get(key, [])` in a `for` loop: a list yields its
elements; an empty string or empty dict yields no iterations; any other
value either is not iterable or yields items on which the loop body's
`d.get` raises — an exception the fetcher's `except Exception` handler
turns into `None`, embedded here as failure. -/
def iterEntries : PyVal → Option (List PyVal)
  | .list xs => some xs
  | .str s => if s.data.isEmpty then some [] else Option.none
  | .dict f => if f.isEmpty then some [] else Option.none
  | _ => Option.none

/-- One credit loop of `OpenAIDetailFetcher.fetch`
(src/detail_fetcher.py:146-172): every dict entry is appended, with
`d.get("name", "")` as the person name; a non-dict entry raises
(caught upstream). -/
def openaiCredits (role : String) : List PyVal → Option (List GameCredit)
  | [] => some []
  | .dict f :: rest => do
      let cs ← openaiCredits role rest
      pure (⟨pyGet f "name" (.str ""), role, pyGet f "known_for" (.list [])⟩ :: cs)
  | _ :: _ => Option.none

/-- One credit loop of `DoubaoDetailFetcher.fetch`
(src/detail_fetcher.py:316-346): an entry is appended only when
`d.get("name")` is truthy. -/
def doubaoCredits (role : String) : List PyVal → Option (List GameCredit)
  | [] => some []
  | .dict f :: rest => do
      let cs ← doubaoCredits role rest
      if truthy (pyGet f "name" .none) then
        pure (⟨pyGet f "name" (.str ""), role, pyGet f "known_for" (.list [])⟩ :: cs)
      else
        pure cs
  | _ :: _ => Option.none

/-- The success path of `OpenAIDetailFetcher.fetch` after `json.loads`
(src/detail_fetcher.py:141-178).  A non-dict top-level value makes
`data.get` raise inside the `try` block; `except Exception` returns
`None`. -/
def openaiBuild (game_name : String) (data : PyVal) : Option GameDetails :=
  match data with
  | .dict f => do
      let ds ← iterEntries (pyGet f "directors" (.list []))
      let directors ← openaiCredits "director" ds
      let ws ← iterEntries (pyGet f "writers" (.list []))
      let writers ← openaiCredits "writer" ws
      let cs ← iterEntries (pyGet f "composers" (.list []))
      let composers ← openaiCredits "composer" cs
      let ps ← iterEntries (pyGet f "producers" (.list []))
      let producers ← openaiCredits "producer" ps
      pure { name := game_name, directors, writers, composers, producers,
             series := pyGet f "series" (.str ""),
             related_games := pyGet f "related_games" (.list []),
             highlights := pyGet f "highlights" (.list []) }
  | _ => Option.none

/-- The success path of `DoubaoDetailFetcher.fetch` after `json.loads`
(src/detail_fetcher.py:311-352). -/
def doubaoBuild (game_name : String) (data : PyVal) : Option GameDetails :=
  match data with
  | .dict f => do
      let ds ← iterEntries (pyGet f "directors" (.list []))
      let directors ← doubaoCredits "director" ds
      let ws ← iterEntries (pyGet f "writers" (.list []))
      let writers ← doubaoCredits "writer" ws
      let cs ← iterEntries (pyGet f "composers" (.list []))
      let composers ← doubaoCredits "composer" cs
      let ps ← iterEntries (pyGet f "producers" (.list []))
      let producers ← doubaoCredits "producer" ps
      pure { name := game_name, directors, writers, composers, producers,
             series := pyGet f "series" (.str ""),
             related_games := pyGet f "related_games" (.list []),
             highlights := pyGet f "highlights" (.list []) }
  | _ => Option.none

/-- The outcome of one chat-completion request, as seen by the code
after the network call: a transport error (`requests.RequestException`,
including `raise_for_status`), a response whose shape breaks
`result["choices"][0]["message"]["content"]`, a content string that
`json.loads` rejects, or a successfully parsed JSON value. -/
inductive LLMOutcome where
  | transportError
  | badShape
  | parseFailure
  | parsed (v : PyVal)

/-- `DoubaoDetailFetcher.fetch` (src/detail_fetcher.py:259-364) as a
function of the request outcome: every failure arm of the
`try`/`except` ladder returns `None`. -/
def doubaoFetch (game_name : String) (resp : LLMOutcome) : Option GameDetails :=
  match resp with
  | .transportError => Option.none
  | .badShape => Option.none
  | .parseFailure => Option.none
  | .parsed v => doubaoBuild game_name v

/-- `OpenAIDetailFetcher.fetch` (src/detail_fetcher.py:95-188). -/
def openaiFetch (game_name : String) (resp : LLMOutcome) : Option GameDetails :=
  match resp with
  | .transportError => Option.none
  | .badShape => Option.none
  | .parseFailure => Option.none
  | .parsed v => openaiBuild game_name v

/-- C7: for every game name, both fetcher implementations return the
absent result on a transport failure, a malformed response shape, or a
JSON parse failure of the model's content — never an exception (the
embedding is a total function into `Option`). -/
theorem fetch_absent_on_every_failure (game_name : String) :
    doubaoFetch game_name .transportError = Option.none ∧
    doubaoFetch game_name .badShape = Option.none ∧
    doubaoFetch game_name .parseFailure = Option.none ∧
    openaiFetch game_name .transportError = Option.none ∧
    openaiFetch game_name .badShape = Option.none ∧
    openaiFetch game_name .parseFailure = Option.none :=
  ⟨rfl, rfl, rfl, rfl, rfl, rfl⟩

theorem doubaoCredits_all_truthy (role : String) (items : List PyVal)
    (l : List GameCredit) (h : doubaoCredits role items = some l) :
    (l.all fun c => truthy c.name) = true := by
  induction items generalizing l with
  | nil =>
      simp only [doubaoCredits, Option.some.injEq] at h
      subst h; rfl
  | cons head rest ih =>
      cases head with
      | dict f =>
          unfold doubaoCredits at h
          split at h
          next hcond =>
            cases hcs : doubaoCredits role rest with
            | none => rw [hcs] at h; exact Option.noConfusion h
            | some cs =>
                rw [hcs] at h
                obtain rfl := (Option.some.inj h).symm
                have hn : truthy (pyGet f "name" (PyVal.str "")) = true := by
                  revert hcond
                  unfold pyGet
                  cases List.lookup "name" f <;> simp [truthy]
                simp [List.all_cons, hn, ih _ hcs]
          next hcond =>
            cases hcs : doubaoCredits role rest with
            | none => rw [hcs] at h; exact Option.noConfusion h
            | some cs =>
                rw [hcs] at h
                obtain rfl := (Option.some.inj h).symm
                exact ih _ hcs
      | none => simp [doubaoCredits] at h
      | bool b => simp [doubaoCredits] at h
      | int n => simp [doubaoCredits] at h
      | str s => simp [doubaoCredits] at h
      | list xs => simp [doubaoCredits] at h

/-- C8 counterexample: on a successfully parsed response whose
`directors` array holds one entry without a `name` field, the OpenAI
fetcher returns a details object containing a credit with an empty
person name — the claim fails for that fetcher implementation. -/
theorem openai_keeps_empty_name_credit :
    openaiFetch "G" (.parsed (.dict [("directors", .list [.dict []])])) =
      some { name := "G",
             directors := [⟨PyVal.str "", "director", PyVal.list []⟩],
             writers := [], composers := [], producers := [],
             series := PyVal.str "",
             related_games := PyVal.list [],
             highlights := PyVal.list [] } := rfl

/-- C8 amended: for the Doubao fetcher the property holds — every entry
of the model's directors/writers/composers/producers arrays whose `name`
field is falsy (empty or missing) is skipped, so every credit in a
successfully returned `GameDetails` has a truthy (in particular
non-empty) person name.  The OpenAI fetcher copies entries
unconditionally; see the counterexample. -/
theorem doubao_credit_names_never_empty (game_name : String) (resp : LLMOutcome)
    (d : GameDetails) (h : doubaoFetch game_name resp = some d) :
    ((d.directors ++ d.writers ++ d.composers ++ d.producers).all
      fun c => truthy c.name) = true := by
  cases resp with
  | transportError => simp [doubaoFetch] at h
  | badShape => simp [doubaoFetch] at h
  | parseFailure => simp [doubaoFetch] at h
  | parsed v =>
      cases v with
      | dict f =>
          simp only [doubaoFetch] at h
          unfold doubaoBuild at h
          dsimp only at h
          cases h1 : iterEntries (pyGet f "directors" (PyVal.list [])) with
          | none => rw [h1] at h; exact Option.noConfusion h
          | some ds =>
            rw [h1] at h
            simp only [Option.bind_eq_bind, Option.some_bind] at h
            cases h2 : doubaoCredits "director" ds with
            | none => rw [h2] at h; exact Option.noConfusion h
            | some dirs =>
              rw [h2] at h
              simp only [Option.bind_eq_bind, Option.some_bind] at h
              cases h3 : iterEntries (pyGet f "writers" (PyVal.list [])) with
              | none => rw [h3] at h; exact Option.noConfusion h
              | some ws =>
                rw [h3] at h
                simp only [Option.bind_eq_bind, Option.some_bind] at h
                cases h4 : doubaoCredits "writer" ws with
                | none => rw [h4] at h; exact Option.noConfusion h
                | some wrs =>
                  rw [h4] at h
                  simp only [Option.bind_eq_bind, Option.some_bind] at h
                  cases h5 : iterEntries (pyGet f "composers" (PyVal.list [])) with
                  | none => rw [h5] at h; exact Option.noConfusion h
                  | some csl =>
                    rw [h5] at h
                    simp only [Option.bind_eq_bind, Option.some_bind] at h
                    cases h6 : doubaoCredits "composer" csl with
                    | none => rw [h6] at h; exact Option.noConfusion h
                    | some cps =>
                      rw [h6] at h
                      simp only [Option.bind_eq_bind, Option.some_bind] at h
                      cases h7 : iterEntries (pyGet f "producers" (PyVal.list [])) with
                      | none => rw [h7] at h; exact Option.noConfusion h
                      | some ps =>
                        rw [h7] at h
                        simp only [Option.bind_eq_bind, Option.some_bind] at h
                        cases h8 : doubaoCredits "producer" ps with
                        | none => rw [h8] at h; exact Option.noConfusion h
                        | some prs =>
                          rw [h8] at h
                          simp only [Option.bind_eq_bind, Option.some_bind] at h
                          obtain rfl := (Option.some.inj h).symm
                          simp only [List.all_append, Bool.and_eq_true]
                          exact ⟨⟨⟨doubaoCredits_all_truthy _ _ _ h2,
                                   doubaoCredits_all_truthy _ _ _ h4⟩,
                                  doubaoCredits_all_truthy _ _ _ h6⟩,
                                 doubaoCredits_all_truthy _ _ _ h8⟩
      | none => simp [doubaoFetch, doubaoBuild] at h
      | bool b => simp [doubaoFetch, doubaoBuild] at h
      | int n => simp [doubaoFetch, doubaoBuild] at h
      | str s => simp [doubaoFetch, doubaoBuild] at h
      | list xs => simp [doubaoFetch, doubaoBuild] at h

theorem doubao_credit_names_never_empty_witness :
    (((GameDetails.mk "Zelda"
        [⟨PyVal.str "Miyamoto", "director", PyVal.list []⟩]
        [] [] [] (PyVal.str "") (PyVal.list []) (PyVal.list [])).directors ++
      (GameDetails.mk "Zelda"
        [⟨PyVal.str "Miyamoto", "director", PyVal.list []⟩]
        [] [] [] (PyVal.str "") (PyVal.list []) (PyVal.list [])).writers ++
      (GameDetails.mk "Zelda"
        [⟨PyVal.str "Miyamoto", "director", PyVal.list []⟩]
        [] [] [] (PyVal.str "") (PyVal.list []) (PyVal.list [])).composers ++
      (GameDetails.mk "Zelda"
        [⟨PyVal.str "Miyamoto", "director", PyVal.list []⟩]
        [] [] [] (PyVal.str "") (PyVal.list []) (PyVal.list [])).producers).all
      fun c => truthy c.name) = true :=
  doubao_credit_names_never_empty "Zelda"
    (.parsed (.dict [("directors", .list [.dict [("name", .str "Miyamoto")]])]))
    _ rfl

/-! ## Detail endpoint fallback (src/server.py:270-310, src/api/index.py:180-215) -/

/-- The detail endpoint's fetch plan: call `fetcher.fetch(game_name)`;
when that result is absent and `fallback_name` is a truthy string
distinct from `game_name`, call `fetcher.fetch(fallback_name)` once
(`if not details and fallback_name and fallback_name != game_name`).
The first component records the names fetched, in order; the second is
the details value the endpoint then renders (absent ↦ the explicit
empty-credits response). -/
def get_game_detail (game_name : String) (fallback_name : Option String)
    (fetch : String → Option GameDetails) :
    List String × Option GameDetails :=
  match fetch game_name with
  | some d => ([game_name], some d)
  | Option.none =>
      match fallback_name with
      | some fb =>
          if fb != "" && fb != game_name then ([game_name, fb], fetch fb)
          else ([game_name], Option.none)
      | Option.none => ([game_name], Option.none)

/-- C9 counterexample: the primary fetch is absent and the supplied
fallback name `""` differs from the primary name `"Zelda"`, yet no
fallback fetch is performed — the handler requires the fallback name to
be truthy (non-empty), not merely supplied and distinct. -/
theorem empty_fallback_name_never_fetched :
    (get_game_detail "Zelda" (some "") (fun _ => Option.none)).1 = ["Zelda"] ∧
    "" ≠ "Zelda" :=
  ⟨rfl, by decide⟩

/-- C9 amended: exactly one additional fetch with the fallback name is
performed when the primary fetch is absent and a NON-EMPTY fallback name
differing from the primary name is supplied; in every other case (primary
succeeded, no fallback given, fallback equal to the primary name, or
fallback empty) only the primary fetch happens. -/
theorem fallback_fetch_fires_exactly_once (game_name : String)
    (fallback_name : Option String) (fetch : String → Option GameDetails) :
    (get_game_detail game_name fallback_name fetch).1 =
      if ((fetch game_name).isNone &&
          (match fallback_name with
           | some fb => fb != "" && fb != game_name
           | Option.none => false)) = true
      then [game_name, fallback_name.getD ""]
      else [game_name] := by
  unfold get_game_detail
  cases hf : fetch game_name with
  | some d => simp
  | none =>
      cases fallback_name with
      | none => simp
      | some fb =>
          by_cases hc : (fb != "" && fb != game_name) = true
          · simp [hc]
          · simp [hc]

/-! ## Batch name translator (src/detail_fetcher.py:366-516) -/

/-- A Python dict `{英文名: value}` in insertion order; keys are unique
by construction of the operations below. -/
abbrev TransDict := List (String × PyVal)

/-- `d[k] = v` on a Python dict: overwrite in place when the key exists,
append otherwise. -/
def dictSet (d : TransDict) (k : String) (v : PyVal) : TransDict :=
  if d.any (fun p => p.1 == k) then
    d.map (fun p => if p.1 == k then (k, v) else p)
  else d ++ [(k, v)]

/-- `k in d`. -/
def dictHasKey (d : TransDict) (k : String) : Bool :=
  d.any (fun p => p.1 == k)

/-- `d.update(e)`: set every entry of `e`, in order, into `d`. -/
def dictUpdate (d e : TransDict) : TransDict :=
  e.foldl (fun a p => dictSet a p.1 p.2) d

/-- `{name: name for name in english_names}`, the identity default of
`_translate_batch` (src/detail_fetcher.py:480). -/
def identityDict (names : List String) : TransDict :=
  names.foldl (fun d n => dictSet d n (PyVal.str n)) []

/-- Lexicographic comparison of Python strings (`a <= b`), code point by
code point. -/
def charListLe : List Char → List Char → Bool
  | [], _ => true
  | _ :: _, [] => false
  | a :: ta, b :: tb => if a < b then true else if a = b then charListLe ta tb else false

/-- `'一' <= c <= '鿿'` for one character of a scanned string:
membership in the CJK Unified Ideographs block. -/
def isCJK (c : Char) : Bool := '一' ≤ c && c ≤ '鿿'

/-- One comparison `'一' <= item <= '鿿'` for an item produced
by iterating a non-string `cn_name`; comparing a non-string item with a
string raises `TypeError`, embedded as failure. -/
def cjkRangeTest : PyVal → Option Bool
  | .str s => some (charListLe ['一'] s.data && charListLe s.data ['鿿'])
  | _ => Option.none

/-- `any(... for item in items)`, short-circuiting at the first success
exactly as the generator does (a bad item after a success is never
evaluated). -/
def pyAnyCJK : List PyVal → Option Bool
  | [] => some false
  | x :: xs => do
      let b ← cjkRangeTest x
      if b then pure true else pyAnyCJK xs

/-- `any('一' <= char <= '鿿' for char in cn_name)`
(src/detail_fetcher.py:498): iterating a string yields its characters
(single-character strings, compared as characters, which agrees with
Python's lexicographic order on one-character strings); a list yields
its elements and a dict its keys; other values are not iterable
(`TypeError`, embedded as failure). -/
def hasChinese : PyVal → Option Bool
  | .str s => some (s.data.any isCJK)
  | .list xs => pyAnyCJK xs
  | .dict f => pyAnyCJK (f.map fun p => PyVal.str p.1)
  | _ => Option.none

/-- The first-match loop of `_translate_batch`
(src/detail_fetcher.py:506-510):
`for orig_name in english_names: if orig_name.lower().strip() == en_lower:
result_dict[orig_name] = cn_name; break`. -/
def assignCI (d : TransDict) (cn : PyVal) (enLower : String) :
    List String → TransDict
  | [] => d
  | orig :: rest =>
      if pyStrip (pyLower orig) == enLower then dictSet d orig cn
      else assignCI d cn enLower rest

/-- Processing of one element of the parsed `translations` array
(src/detail_fetcher.py:482-510).  `Option.none` marks a raised exception
(`.lower()` on a truthy non-string `en`, or comparing a non-string item
of `cn` with a string), which the batch-level `except Exception` turns
into the identity mapping for the whole batch. -/
def processTriple (names : List String) (d : TransDict) (item : PyVal) :
    Option TransDict :=
  match item with
  | .dict fields =>
      let en := pyGet fields "en" (.str "")
      let cn := pyGet fields "cn" (.str "")
      let is_sure := pyGet fields "sure" (.bool false)
      if !truthy en || !truthy cn then some d
      else if !truthy is_sure then some d
      else do
        let hc ← hasChinese cn
        if !hc then pure d
        else
          match en with
          | .str s =>
              if dictHasKey d s then pure (dictSet d s cn)
              else pure (assignCI d cn (pyStrip (pyLower s)) names)
          | _ => Option.none
  | _ => some d

/-- The `for item in translations` loop. -/
def processTriples (names : List String) : TransDict → List PyVal → Option TransDict
  | d, [] => some d
  | d, item :: rest => do
      let d2 ← processTriple names d item
      processTriples names d2 rest

/-- `DoubaoDetailFetcher._translate_batch` (src/detail_fetcher.py:392-516)
as a function of the request outcome.  Every failure — transport error,
bad response shape, `json.loads` failure, or an exception raised while
walking the parsed value — is caught by `except Exception` and yields the
identity mapping; a parsed top-level value that is not a list takes the
`if not isinstance(translations, list)` early return, also the identity
mapping. -/
def translateBatch (names : List String) (resp : LLMOutcome) : TransDict :=
  if names.isEmpty then []
  else
    match resp with
    | .transportError => identityDict names
    | .badShape => identityDict names
    | .parseFailure => identityDict names
    | .parsed v =>
        match v with
        | .list items =>
            match processTriples names (identityDict names) items with
            | some d => d
            | Option.none => identityDict names
        | _ => identityDict names

def BATCH_SIZE : Nat := 5

/-- The batch slicing of `translate_game_names`
(src/detail_fetcher.py:385-386):
`english_names[batch_start : batch_start + BATCH_SIZE]` for
`batch_start in range(0, len(english_names), BATCH_SIZE)`. -/
def chunks (l : List String) : List (List String) :=
  if _h : l.isEmpty then []
  else l.take BATCH_SIZE :: chunks (l.drop BATCH_SIZE)
termination_by l.length
decreasing_by
  have hl : 0 < l.length := by
    cases l with
    | nil => simp at _h
    | cons a t => simp
  simpa [List.length_drop] using Nat.sub_lt hl (by decide)

/-- `DoubaoDetailFetcher.translate_game_names`
(src/detail_fetcher.py:366-390): empty input short-circuits to `{}`;
otherwise the batches are translated strictly in order and merged with
`all_results.update(batch_results)`.  The model is an oracle mapping
each batch to its request outcome. -/
def translate_game_names (names : List String)
    (oracle : List String → LLMOutcome) : TransDict :=
  if names.isEmpty then []
  else (chunks names).foldl
    (fun acc b => dictUpdate acc (translateBatch b (oracle b))) []

/-! ### Key-set bookkeeping for the translator -/

theorem dictHasKey_iff (d : TransDict) (k : String) :
    dictHasKey d k = true ↔ k ∈ d.map Prod.fst := by
  simp [dictHasKey, List.any_eq_true, List.mem_map]

theorem dictHasKey_false_iff (d : TransDict) (k : String) :
    dictHasKey d k = false ↔ k ∉ d.map Prod.fst := by
  rw [← dictHasKey_iff, Bool.not_eq_true, Bool.eq_false_iff, ne_eq, Bool.not_eq_true]

theorem dictSet_keys_of_mem (d : TransDict) (k : String) (v : PyVal)
    (hmem : dictHasKey d k = true) :
    (dictSet d k v).map Prod.fst = d.map Prod.fst := by
  have hc : (d.any fun p => p.1 == k) = true := hmem
  unfold dictSet
  rw [if_pos hc, List.map_map]
  apply List.map_congr_left
  intro p hp
  by_cases hb : p.1 = k
  · simp [hb]
  · simp [hb]

theorem dictSet_of_not_mem (d : TransDict) (k : String) (v : PyVal)
    (hmem : dictHasKey d k = false) :
    dictSet d k v = d ++ [(k, v)] := by
  have hc : (d.any fun p => p.1 == k) = false := hmem
  unfold dictSet
  rw [if_neg (by simp [hc])]

theorem identityDict_go (names : List String) : ∀ (d : TransDict),
    names.Nodup → (∀ n ∈ names, n ∉ d.map Prod.fst) →
    names.foldl (fun d n => dictSet d n (PyVal.str n)) d
      = d ++ names.map (fun n => (n, PyVal.str n)) := by
  induction names with
  | nil => intro d _ _; simp
  | cons a rest ih =>
      intro d hnd hdisj
      simp only [List.foldl_cons]
      have ha : dictHasKey d a = false :=
        (dictHasKey_false_iff d a).mpr (hdisj a (List.mem_cons_self a rest))
      rw [dictSet_of_not_mem d a _ ha]
      rw [ih (d ++ [(a, PyVal.str a)]) hnd.of_cons]
      · simp
      · intro n hn
        simp only [List.map_append, List.mem_append]
        rintro (hcase | hcase)
        · exact hdisj n (List.mem_cons_of_mem a hn) hcase
        · simp only [List.map_cons, List.map_nil, List.mem_singleton] at hcase
          subst hcase
          exact (List.nodup_cons.mp hnd).1 hn

theorem identityDict_eq (names : List String) (h : names.Nodup) :
    identityDict names = names.map fun n => (n, PyVal.str n) := by
  unfold identityDict
  rw [identityDict_go names [] h (by simp)]
  simp

theorem identityDict_keys (names : List String) (h : names.Nodup) :
    (identityDict names).map Prod.fst = names := by
  rw [identityDict_eq names h, List.map_map]
  simp [Function.comp_def]

theorem assignCI_keys (d : TransDict) (cn : PyVal) (enL : String)
    (names' : List String) (hsub : ∀ n ∈ names', n ∈ d.map Prod.fst) :
    (assignCI d cn enL names').map Prod.fst = d.map Prod.fst := by
  induction names' with
  | nil => rfl
  | cons orig rest ih =>
      unfold assignCI
      split
      · exact dictSet_keys_of_mem d orig cn
          ((dictHasKey_iff d orig).mpr (hsub orig (List.mem_cons_self orig rest)))
      · exact ih fun n hn => hsub n (List.mem_cons_of_mem orig hn)

theorem processTriple_keys (names : List String) (d d2 : TransDict) (item : PyVal)
    (hsub : ∀ n ∈ names, n ∈ d.map Prod.fst)
    (h : processTriple names d item = some d2) :
    d2.map Prod.fst = d.map Prod.fst := by
  cases item with
  | dict fields =>
      unfold processTriple at h
      dsimp only at h
      split at h
      · obtain rfl := (Option.some.inj h).symm; rfl
      · split at h
        · obtain rfl := (Option.some.inj h).symm; rfl
        · cases hhc : hasChinese (pyGet fields "cn" (PyVal.str "")) with
          | none => rw [hhc] at h; exact Option.noConfusion h
          | some hc =>
              rw [hhc] at h
              simp only [Option.bind_eq_bind, Option.some_bind] at h
              split at h
              · obtain rfl := (Option.some.inj h).symm; rfl
              · split at h
                · split at h
                  next hk =>
                    obtain rfl := (Option.some.inj h).symm
                    exact dictSet_keys_of_mem d _ _ hk
                  next hk =>
                    obtain rfl := (Option.some.inj h).symm
                    exact assignCI_keys d _ _ names hsub
                · exact Option.noConfusion h
  | none => obtain rfl := (Option.some.inj h).symm; rfl
  | bool b => obtain rfl := (Option.some.inj h).symm; rfl
  | int n => obtain rfl := (Option.some.inj h).symm; rfl
  | str s => obtain rfl := (Option.some.inj h).symm; rfl
  | list xs => obtain rfl := (Option.some.inj h).symm; rfl

theorem processTriples_keys (names : List String) (items : List PyVal) :
    ∀ (d d2 : TransDict), (∀ n ∈ names, n ∈ d.map Prod.fst) →
    processTriples names d items = some d2 →
    d2.map Prod.fst = d.map Prod.fst := by
  induction items with
  | nil =>
      intro d d2 _ h
      obtain rfl := (Option.some.inj h).symm
      rfl
  | cons item rest ih =>
      intro d d2 hsub h
      unfold processTriples at h
      cases hstep : processTriple names d item with
      | none => rw [hstep] at h; exact Option.noConfusion h
      | some dmid =>
          rw [hstep] at h
          simp only [Option.bind_eq_bind, Option.some_bind] at h
          have hkeys := processTriple_keys names d dmid item hsub hstep
          have := ih dmid d2 (fun n hn => hkeys ▸ hsub n hn) h
          rw [this, hkeys]

theorem translateBatch_keys (names : List String) (resp : LLMOutcome)
    (h : names.Nodup) :
    (translateBatch names resp).map Prod.fst = names := by
  unfold translateBatch
  split
  next hemp => rw [List.isEmpty_iff.mp hemp]; rfl
  next hemp =>
      cases resp with
      | transportError => exact identityDict_keys names h
      | badShape => exact identityDict_keys names h
      | parseFailure => exact identityDict_keys names h
      | parsed v =>
          cases v with
          | list items =>
              dsimp only
              cases hp : processTriples names (identityDict names) items with
              | none => exact identityDict_keys names h
              | some d =>
                  have hkeys := processTriples_keys names items (identityDict names) d
                    (by rw [identityDict_keys names h]; exact fun n hn => hn) hp
                  rw [hkeys, identityDict_keys names h]
          | none => exact identityDict_keys names h
          | bool b => exact identityDict_keys names h
          | int n => exact identityDict_keys names h
          | str s => exact identityDict_keys names h
          | dict f => exact identityDict_keys names h

theorem dictUpdate_append (e : TransDict) : ∀ (d : TransDict),
    (d.map Prod.fst ++ e.map Prod.fst).Nodup →
    dictUpdate d e = d ++ e := by
  induction e with
  | nil => intro d _; simp [dictUpdate]
  | cons p rest ih =>
      intro d h
      have hdisj := (List.nodup_append.mp h).2.2
      have hk : dictHasKey d p.1 = false :=
        (dictHasKey_false_iff d p.1).mpr
          (fun hmem => hdisj hmem (by simp))
      unfold dictUpdate
      simp only [List.foldl_cons]
      rw [dictSet_of_not_mem d p.1 p.2 hk]
      have h2 : ((d ++ [(p.1, p.2)]).map Prod.fst ++ rest.map Prod.fst).Nodup := by
        simp only [List.map_append, List.map_cons, List.map_nil]
        rw [List.append_assoc, List.singleton_append]
        simpa using h
      have := ih (d ++ [(p.1, p.2)]) h2
      unfold dictUpdate at this
      rw [this, List.append_assoc, List.singleton_append]

theorem translate_keys_go (oracle : List String → LLMOutcome)
    (names : List String) (acc : TransDict)
    (h : (acc.map Prod.fst ++ names).Nodup) :
    ((chunks names).foldl
        (fun a b => dictUpdate a (translateBatch b (oracle b))) acc).map Prod.fst
      = acc.map Prod.fst ++ names := by
  unfold chunks
  split
  next hemp =>
      rw [List.isEmpty_iff.mp hemp]
      simp
  next hemp =>
      simp only [List.foldl_cons]
      have hsplit : names.take BATCH_SIZE ++ names.drop BATCH_SIZE = names :=
        List.take_append_drop BATCH_SIZE names
      have hass : ((acc.map Prod.fst ++ names.take BATCH_SIZE) ++ names.drop BATCH_SIZE).Nodup := by
        rw [List.append_assoc, hsplit]; exact h
      have htake : (names.take BATCH_SIZE).Nodup :=
        ((List.nodup_append.mp (List.nodup_append.mp hass).1).2).1
      have hbkeys : (translateBatch (names.take BATCH_SIZE)
            (oracle (names.take BATCH_SIZE))).map Prod.fst = names.take BATCH_SIZE :=
        translateBatch_keys _ _ htake
      have hstep : dictUpdate acc (translateBatch (names.take BATCH_SIZE)
            (oracle (names.take BATCH_SIZE)))
          = acc ++ translateBatch (names.take BATCH_SIZE) (oracle (names.take BATCH_SIZE)) :=
        dictUpdate_append _ acc (by rw [hbkeys]; exact (List.nodup_append.mp hass).1)
      rw [hstep]
      have hdec : (names.drop BATCH_SIZE).length < names.length := by
        have hl : 0 < names.length := by
          cases names with
          | nil => simp at hemp
          | cons a t => simp
        simpa [List.length_drop] using Nat.sub_lt hl (by decide)
      have hrec := translate_keys_go oracle (names.drop BATCH_SIZE)
        (acc ++ translateBatch (names.take BATCH_SIZE) (oracle (names.take BATCH_SIZE)))
        (by rw [List.map_append, hbkeys]; exact hass)
      rw [hrec, List.map_append, hbkeys, List.append_assoc, hsplit]
termination_by names.length
decreasing_by
  exact hdec

/-- C1: for every list of pairwise-distinct input names and every model
behaviour — any per-batch combination of transport errors, malformed
response shapes, JSON parse failures, non-list JSON, or arbitrary parsed
values — `translate_game_names` returns a mapping whose keys are exactly
the input names (even in input order): every input name is a key and no
key is added.  The embedding is a total function into `TransDict`, so no
exception escapes the boundary: every internal failure is mapped to an
identity batch. -/
theorem translate_keys_exactly_input (names : List String) (h : names.Nodup)
    (oracle : List String → LLMOutcome) :
    (translate_game_names names oracle).map Prod.fst = names := by
  unfold translate_game_names
  split
  next hemp => rw [List.isEmpty_iff.mp hemp]; rfl
  next hemp =>
      have := translate_keys_go oracle names [] (by simpa using h)
      simpa using this

theorem translate_keys_exactly_input_witness :
    (translate_game_names ["Mario", "Zelda", "Metroid"]
        (fun b => if b.length = 0 then LLMOutcome.transportError
                  else LLMOutcome.parsed (PyVal.str "oops"))).map Prod.fst
      = ["Mario", "Zelda", "Metroid"] :=
  translate_keys_exactly_input _ (by decide) _

theorem chunks_cons (l : List String) (hne : l.isEmpty = false) :
    chunks l = l.take BATCH_SIZE :: chunks (l.drop BATCH_SIZE) := by
  rw [chunks, dif_neg (by simp [hne])]

theorem chunks_of_empty (l : List String) (he : l.isEmpty = true) :
    chunks l = [] := by
  rw [chunks, dif_pos he]

/-- C6: `translate_game_names` partitions its input into consecutive
batches of `BATCH_SIZE = 5` names in input order — for 12 (pairwise
distinct) input names exactly 3 batches of sizes 5, 5, 2 are issued —
and a parse failure on the middle batch maps exactly that batch's 5
names to themselves (identity) while the results of batches 1 and 3 are
exactly their own batch translations, unaffected. -/
theorem batch_partition_and_failure_isolation (names : List String)
    (oracle : List String → LLMOutcome)
    (h12 : names.length = 12) (hnd : names.Nodup)
    (hfail : oracle ((names.drop BATCH_SIZE).take BATCH_SIZE)
      = LLMOutcome.parseFailure) :
    (chunks names).map List.length = [5, 5, 2] ∧
    translate_game_names names oracle =
      translateBatch (names.take BATCH_SIZE) (oracle (names.take BATCH_SIZE))
        ++ ((names.drop BATCH_SIZE).take BATCH_SIZE).map (fun n => (n, PyVal.str n))
        ++ translateBatch ((names.drop BATCH_SIZE).drop BATCH_SIZE)
             (oracle ((names.drop BATCH_SIZE).drop BATCH_SIZE)) := by
  have hne1 : names.isEmpty = false := by
    cases names with
    | nil => simp at h12
    | cons a t => rfl
  have hlen1 : (names.drop BATCH_SIZE).length = 7 := by
    rw [List.length_drop, h12]; decide
  have hne2 : (names.drop BATCH_SIZE).isEmpty = false := by
    cases hcase : names.drop BATCH_SIZE with
    | nil => rw [hcase] at hlen1; simp at hlen1
    | cons a t => rfl
  have hlen2 : ((names.drop BATCH_SIZE).drop BATCH_SIZE).length = 2 := by
    rw [List.length_drop, hlen1]; decide
  have hne3 : ((names.drop BATCH_SIZE).drop BATCH_SIZE).isEmpty = false := by
    cases hcase : (names.drop BATCH_SIZE).drop BATCH_SIZE with
    | nil => rw [hcase] at hlen2; simp at hlen2
    | cons a t => rfl
  have hemp4 : (((names.drop BATCH_SIZE).drop BATCH_SIZE).drop BATCH_SIZE).isEmpty
      = true := by
    rw [List.isEmpty_iff]
    apply List.drop_eq_nil_of_le
    rw [hlen2]; decide
  have ht3 : ((names.drop BATCH_SIZE).drop BATCH_SIZE).take BATCH_SIZE
      = (names.drop BATCH_SIZE).drop BATCH_SIZE := by
    apply List.take_of_length_le
    rw [hlen2]; decide
  have echunks : chunks names =
      [names.take BATCH_SIZE, (names.drop BATCH_SIZE).take BATCH_SIZE,
       (names.drop BATCH_SIZE).drop BATCH_SIZE] := by
    rw [chunks_cons _ hne1, chunks_cons _ hne2, chunks_cons _ hne3,
        chunks_of_empty _ hemp4, ht3]
  have hlens : (chunks names).map List.length = [5, 5, 2] := by
    rw [echunks]
    simp only [List.map_cons, List.map_nil]
    rw [List.length_take, List.length_take, h12, hlen1, hlen2]
    decide
  have hsplit2 : (names.drop BATCH_SIZE).take BATCH_SIZE
      ++ (names.drop BATCH_SIZE).drop BATCH_SIZE = names.drop BATCH_SIZE :=
    List.take_append_drop _ _
  have hsplit1 : names.take BATCH_SIZE ++ names.drop BATCH_SIZE = names :=
    List.take_append_drop _ _
  have hndall : (names.take BATCH_SIZE ++
      ((names.drop BATCH_SIZE).take BATCH_SIZE
        ++ (names.drop BATCH_SIZE).drop BATCH_SIZE)).Nodup := by
    rw [hsplit2, hsplit1]; exact hnd
  obtain ⟨hnd1, hnd23, hdisj1⟩ := List.nodup_append.mp hndall
  obtain ⟨hnd2, hnd3, hdisj23⟩ := List.nodup_append.mp hnd23
  have hk1 : (translateBatch (names.take BATCH_SIZE)
        (oracle (names.take BATCH_SIZE))).map Prod.fst = names.take BATCH_SIZE :=
    translateBatch_keys _ _ hnd1
  have hk3 : (translateBatch ((names.drop BATCH_SIZE).drop BATCH_SIZE)
        (oracle ((names.drop BATCH_SIZE).drop BATCH_SIZE))).map Prod.fst
      = (names.drop BATCH_SIZE).drop BATCH_SIZE :=
    translateBatch_keys _ _ hnd3
  have hbatch2 : translateBatch ((names.drop BATCH_SIZE).take BATCH_SIZE)
        (oracle ((names.drop BATCH_SIZE).take BATCH_SIZE))
      = ((names.drop BATCH_SIZE).take BATCH_SIZE).map (fun n => (n, PyVal.str n)) := by
    rw [hfail]
    unfold translateBatch
    rw [if_neg (by
      rw [List.isEmpty_iff]
      intro he
      have hzero : ((names.drop BATCH_SIZE).take BATCH_SIZE).length = 0 := by
        rw [he]; rfl
      rw [List.length_take, hlen1] at hzero
      exact absurd hzero (by decide))]
    exact identityDict_eq _ hnd2
  have hk2 : ((((names.drop BATCH_SIZE).take BATCH_SIZE).map
        (fun n => (n, PyVal.str n))).map Prod.fst)
      = (names.drop BATCH_SIZE).take BATCH_SIZE := by
    rw [List.map_map]; simp [Function.comp_def]
  have hdisj12 : (names.take BATCH_SIZE).Disjoint
      ((names.drop BATCH_SIZE).take BATCH_SIZE) :=
    fun _ ha hb => hdisj1 ha (List.mem_append_left _ hb)
  refine ⟨hlens, ?_⟩
  unfold translate_game_names
  rw [if_neg (by simp [hne1])]
  rw [echunks]
  simp only [List.foldl_cons, List.foldl_nil]
  rw [hbatch2]
  rw [dictUpdate_append _ []
    (by simp only [List.map_nil, List.nil_append]; rw [hk1]; exact hnd1)]
  rw [List.nil_append]
  rw [dictUpdate_append
      (((names.drop BATCH_SIZE).take BATCH_SIZE).map (fun n => (n, PyVal.str n)))
      (translateBatch (names.take BATCH_SIZE) (oracle (names.take BATCH_SIZE)))
      (by rw [hk1, hk2]; exact List.nodup_append.mpr ⟨hnd1, hnd2, hdisj12⟩)]
  rw [dictUpdate_append
      (translateBatch ((names.drop BATCH_SIZE).drop BATCH_SIZE)
        (oracle ((names.drop BATCH_SIZE).drop BATCH_SIZE)))
      (translateBatch (names.take BATCH_SIZE) (oracle (names.take BATCH_SIZE))
        ++ ((names.drop BATCH_SIZE).take BATCH_SIZE).map (fun n => (n, PyVal.str n)))
      (by
        rw [List.map_append, hk1, hk2, hk3, List.append_assoc]
        exact hndall)]

theorem batch_partition_and_failure_isolation_witness :
    (chunks ["a", "b", "c", "d", "e", "f", "g", "h", "i", "j", "k", "l"]).map
        List.length = [5, 5, 2] ∧
    translate_game_names ["a", "b", "c", "d", "e", "f", "g", "h", "i", "j", "k", "l"]
        (fun _ => LLMOutcome.parseFailure) =
      translateBatch
          (["a", "b", "c", "d", "e", "f", "g", "h", "i", "j", "k", "l"].take BATCH_SIZE)
          ((fun _ => LLMOutcome.parseFailure)
            (["a", "b", "c", "d", "e", "f", "g", "h", "i", "j", "k", "l"].take BATCH_SIZE))
        ++ ((["a", "b", "c", "d", "e", "f", "g", "h", "i", "j", "k", "l"].drop
              BATCH_SIZE).take BATCH_SIZE).map (fun n => (n, PyVal.str n))
        ++ translateBatch
            ((["a", "b", "c", "d", "e", "f", "g", "h", "i", "j", "k", "l"].drop
                BATCH_SIZE).drop BATCH_SIZE)
            ((fun _ => LLMOutcome.parseFailure)
              ((["a", "b", "c", "d", "e", "f", "g", "h", "i", "j", "k", "l"].drop
                  BATCH_SIZE).drop BATCH_SIZE)) :=
  batch_partition_and_failure_isolation _ _ (by decide) (by decide) rfl

/-! ### Rejected triples contribute nothing -/

theorem processTriples_cons (names : List String) (d : TransDict)
    (item : PyVal) (rest : List PyVal) :
    processTriples names d (item :: rest)
      = (processTriple names d item).bind
          fun d2 => processTriples names d2 rest := by
  conv_lhs => unfold processTriples
  rfl

theorem processTriples_skip (names : List String) (t : PyVal)
    (ht : ∀ d : TransDict, processTriple names d t = some d) :
    ∀ (pre post : List PyVal) (d : TransDict),
    processTriples names d (pre ++ t :: post)
      = processTriples names d (pre ++ post) := by
  intro pre
  induction pre with
  | nil =>
      intro post d
      simp only [List.nil_append]
      rw [processTriples_cons, ht d]
      simp only [Option.some_bind]
  | cons x pre ih =>
      intro post d
      simp only [List.cons_append]
      rw [processTriples_cons names d x (pre ++ t :: post),
          processTriples_cons names d x (pre ++ post)]
      cases hx : processTriple names d x with
      | none => rfl
      | some d2 =>
          simp only [Option.some_bind]
          exact ih post d2

theorem processTriple_unsure (names : List String)
    (fields : List (String × PyVal))
    (hsure : truthy (pyGet fields "sure" (PyVal.bool false)) = false)
    (d : TransDict) :
    processTriple names d (PyVal.dict fields) = some d := by
  unfold processTriple
  dsimp only
  split
  · rfl
  · simp [hsure]

theorem processTriple_noncjk (names : List String)
    (fields : List (String × PyVal)) (s : String)
    (hcn : pyGet fields "cn" (PyVal.str "") = PyVal.str s)
    (hnc : s.data.any isCJK = false) (d : TransDict) :
    processTriple names d (PyVal.dict fields) = some d := by
  unfold processTriple
  dsimp only
  split
  · rfl
  · split
    · rfl
    · rw [hcn]
      simp only [hasChinese, hnc]
      rfl

/-- C4 counterexample: the parsed response holds two triples for
`"Zelda"`; the second has `sure: false`, yet `"Zelda"` does not map to
itself in the batch result — the first triple (sure, CJK value) was
accepted — so the claim's universally quantified identity conclusion is
false at this input. -/
theorem unsure_triple_identity_fails :
    translateBatch ["Zelda"]
        (.parsed (.list
          [PyVal.dict [("en", PyVal.str "Zelda"), ("cn", PyVal.str "塞尔达"),
                       ("sure", PyVal.bool true)],
           PyVal.dict [("en", PyVal.str "Zelda"), ("cn", PyVal.str "Nope"),
                       ("sure", PyVal.bool false)]]))
      = [("Zelda", PyVal.str "塞尔达")] ∧
    PyVal.str "塞尔达" ≠ PyVal.str "Zelda" :=
  ⟨rfl, fun hcase => absurd (PyVal.str.inj hcase) (by decide)⟩

/-- C4 amended: a triple whose `sure` field is falsy (`false` or absent)
contributes nothing to the batch result, regardless of its `cn` content:
deleting it from the model's response leaves the result unchanged.
Consequently the corresponding input name keeps its identity mapping
unless a different triple for that name is accepted. -/
theorem unsure_triple_contributes_nothing (names : List String)
    (pre post : List PyVal) (fields : List (String × PyVal))
    (hsure : truthy (pyGet fields "sure" (PyVal.bool false)) = false) :
    translateBatch names (.parsed (.list (pre ++ PyVal.dict fields :: post)))
      = translateBatch names (.parsed (.list (pre ++ post))) := by
  unfold translateBatch
  split
  · rfl
  · dsimp only
    rw [processTriples_skip names (PyVal.dict fields)
      (processTriple_unsure names fields hsure) pre post (identityDict names)]

theorem unsure_triple_contributes_nothing_witness :
    truthy (pyGet [("sure", PyVal.bool false)] "sure" (PyVal.bool false)) = false ∧
    translateBatch ["A"]
        (.parsed (.list
          ([PyVal.dict [("en", PyVal.str "A"), ("cn", PyVal.str "甲"),
                        ("sure", PyVal.bool true)]]
            ++ PyVal.dict [("sure", PyVal.bool false)] :: [])))
      = translateBatch ["A"]
          (.parsed (.list
            ([PyVal.dict [("en", PyVal.str "A"), ("cn", PyVal.str "甲"),
                          ("sure", PyVal.bool true)]] ++ []))) :=
  ⟨rfl, unsure_triple_contributes_nothing ["A"] _ _ _ rfl⟩

/-- C5 counterexample: the parsed response holds two triples for
`"Mario"`; the first is marked sure but its `cn` value `"Mario Bros"`
contains no CJK Unified Ideograph, so it is rejected — yet `"Mario"`
does not keep its identity mapping, because the second triple was
accepted.  The claim's identity conclusion is false at this input. -/
theorem noncjk_triple_identity_fails :
    translateBatch ["Mario"]
        (.parsed (.list
          [PyVal.dict [("en", PyVal.str "Mario"), ("cn", PyVal.str "Mario Bros"),
                       ("sure", PyVal.bool true)],
           PyVal.dict [("en", PyVal.str "Mario"), ("cn", PyVal.str "马力欧"),
                       ("sure", PyVal.bool true)]]))
      = [("Mario", PyVal.str "马力欧")] ∧
    ("Mario Bros".data.any isCJK = false) ∧
    PyVal.str "马力欧" ≠ PyVal.str "Mario" :=
  ⟨rfl, by decide, fun hcase => absurd (PyVal.str.inj hcase) (by decide)⟩

/-- C5 amended: a triple whose `cn` value is a string containing no
character of the CJK Unified Ideographs range (U+4E00–U+9FFF) is
rejected even when its `sure` field is true: it contributes nothing, so
the corresponding input name keeps its identity mapping unless some
other triple for that name is accepted. -/
theorem noncjk_triple_contributes_nothing (names : List String)
    (pre post : List PyVal) (fields : List (String × PyVal)) (s : String)
    (hcn : pyGet fields "cn" (PyVal.str "") = PyVal.str s)
    (hnc : s.data.any isCJK = false) :
    translateBatch names (.parsed (.list (pre ++ PyVal.dict fields :: post)))
      = translateBatch names (.parsed (.list (pre ++ post))) := by
  unfold translateBatch
  split
  · rfl
  · dsimp only
    rw [processTriples_skip names (PyVal.dict fields)
      (processTriple_noncjk names fields s hcn hnc) pre post (identityDict names)]

theorem noncjk_triple_contributes_nothing_witness :
    pyGet [("en", PyVal.str "B"), ("cn", PyVal.str "Beta"),
           ("sure", PyVal.bool true)] "cn" (PyVal.str "") = PyVal.str "Beta" ∧
    "Beta".data.any isCJK = false ∧
    translateBatch ["B"]
        (.parsed (.list
          ([] ++ PyVal.dict [("en", PyVal.str "B"), ("cn", PyVal.str "Beta"),
                             ("sure", PyVal.bool true)] :: [])))
      = translateBatch ["B"] (.parsed (.list ([] ++ []))) :=
  ⟨rfl, by decide,
    noncjk_triple_contributes_nothing ["B"] _ _ _ "Beta" rfl (by decide)⟩

end VGame
